import Mathlib

/-!
Verification of the clickhouse gorm dialect (src/clickhouse.go).

The file shallowly embeds the dialect's pure logic: the WHERE-expression
rewriter (`modifyExprs`, `modifyStatementWhereConds`), the DELETE clause
builder, the type mapper (`DataTypeOf`), the identifier quoter (`QuoteTo`),
initialization with version detection (`Initialize`), and the savepoint
stubs.  Go struct values held in interfaces and slices have copy semantics,
so predicate leaves are modelled as values; the reflective leaf rewrite
(reflect.New + FieldByName("Column").Set) is modelled as constructing a
fresh term with the Column field replaced.
-/

namespace Clickhouse

/-- Embeds gorm's clause.Column (fields Table, Name, Alias, Raw). -/
structure Column where
  table : String
  name : String
  aliasName : String
  raw : Bool
  deriving DecidableEq, Repr

/-- Embeds reflect's IsZero on a clause.Column value: every field at its
zero value. -/
def Column.isZero (c : Column) : Bool :=
  decide (c.table = "") && decide (c.name = "") && decide (c.aliasName = "") && !c.raw

/-- The possible contents of a leaf-predicate struct field named `Column`,
as seen by the reflection in modifyExprs: a field statically typed
clause.Column, an interface field holding a clause.Column, a nil interface
field, or a field of some other type (on which the clause.Column type
assertion fails). -/
inductive FieldVal where
  | colVal (c : Column)
  | ifaceCol (c : Column)
  | ifaceNil
  | otherType (zero : Bool)
  deriving DecidableEq, Repr

/-- Embeds field.IsZero() for each field shape: a clause.Column-typed field
is zero when the Column value is zero; an interface field is zero exactly
when it is nil; other types carry their own zero flag. -/
def FieldVal.isZeroField : FieldVal → Bool
  | .colVal c => c.isZero
  | .ifaceCol _ => false
  | .ifaceNil => true
  | .otherType zero => zero

/-- Embeds the type assertion field.Interface().(clause.Column): succeeds on
a clause.Column-typed field and on an interface field holding one. -/
def FieldVal.assertColumn : FieldVal → Option Column
  | .colVal c => some c
  | .ifaceCol c => some c
  | .ifaceNil => none
  | .otherType _ => none

/-- Embeds result.FieldByName("Column").Set(reflect.ValueOf(column)) on the
fresh copy: the field (of whichever shape) now holds the given column. -/
def FieldVal.setColumn : FieldVal → Column → FieldVal
  | .colVal _, c => .colVal c
  | .ifaceCol _, c => .ifaceCol c
  | fv, _ => fv

/-- The WHERE-clause expression tree handed to modifyExprs: gorm's
AndConditions / OrConditions / NotConditions composites, struct leaves
(with or without a `Column` field, carried as `Option FieldVal` together
with the rest of the struct abstracted as a payload), and non-struct
expressions (pointers etc., reflect kind ≠ Struct). -/
inductive Expr where
  | and (exprs : List Expr)
  | or (exprs : List Expr)
  | not (exprs : List Expr)
  | leafStruct (column : Option FieldVal) (payload : String)
  | leafNonStruct (payload : String)

/-- Embeds the default branch of modifyExprs (src/clickhouse.go lines
150-162): on a struct expression, look up the `Column` field; if it is
valid and not zero and asserts to clause.Column, clear the table on a local
copy of the column, build a fresh struct copy, set its Column field, and
store that copy in the slot; otherwise leave the expression untouched. -/
def rewriteLeaf (fv? : Option FieldVal) (payload : String) : Expr :=
  match fv? with
  | none => .leafStruct none payload
  | some fv =>
      if fv.isZeroField then .leafStruct (some fv) payload
      else
        match fv.assertColumn with
        | some column =>
            let column : Column := { column with table := "" }
            .leafStruct (some (fv.setColumn column)) payload
        | none => .leafStruct (some fv) payload

mutual

/-- Embeds the per-element switch of modifyExprs: recurse into
AndConditions / NotConditions / OrConditions, rewrite leaves via the
reflective default branch, pass non-struct expressions through. -/
def rewriteExpr : Expr → Expr
  | .and es => .and (modifyExprs es)
  | .not es => .not (modifyExprs es)
  | .or es => .or (modifyExprs es)
  | .leafStruct fv? payload => rewriteLeaf fv? payload
  | .leafNonStruct payload => .leafNonStruct payload

/-- Embeds modifyExprs (src/clickhouse.go lines 141-165): the loop over the
expression slice, each slot updated per the switch. -/
def modifyExprs : List Expr → List Expr
  | [] => []
  | e :: rest => rewriteExpr e :: modifyExprs rest

end

/-- The condition under which modifyExprs rewrites a struct leaf: the
`Column` field is present, not zero, and asserts to clause.Column. -/
def leafRewritable : Option FieldVal → Bool
  | none => false
  | some fv => !fv.isZeroField && fv.assertColumn.isSome

/-- Clearing the table qualifier on the Column field, stated from the
spec's words (spec §4.3 step 3). -/
def clearFieldTable : FieldVal → FieldVal
  | .colVal c => .colVal { c with table := "" }
  | .ifaceCol c => .ifaceCol { c with table := "" }
  | fv => fv

mutual

/-- Specification-side rewrite, following the spec's words: descend through
AND/OR/NOT composite nodes, clear the table qualifier on exactly the leaf
predicates carrying a present, non-zero Column field of the column type,
and leave every other expression untouched. -/
def clearExpr : Expr → Expr
  | .and es => .and (clearExprs es)
  | .not es => .not (clearExprs es)
  | .or es => .or (clearExprs es)
  | .leafStruct fv? payload =>
      if leafRewritable fv? then .leafStruct (fv?.map clearFieldTable) payload
      else .leafStruct fv? payload
  | .leafNonStruct payload => .leafNonStruct payload

/-- Specification-side rewrite of an expression list. -/
def clearExprs : List Expr → List Expr
  | [] => []
  | e :: rest => clearExpr e :: clearExprs rest

end

/-- The AND/OR/NOT skeleton of an expression, with leaves erased. -/
inductive Shape where
  | and (children : List Shape)
  | or (children : List Shape)
  | not (children : List Shape)
  | leaf

mutual

/-- Computes the AND/OR/NOT skeleton of an expression. -/
def shapeOf : Expr → Shape
  | .and es => .and (shapesOf es)
  | .or es => .or (shapesOf es)
  | .not es => .not (shapesOf es)
  | .leafStruct _ _ => .leaf
  | .leafNonStruct _ => .leaf

/-- Computes the skeletons of an expression list. -/
def shapesOf : List Expr → List Shape
  | [] => []
  | e :: rest => shapeOf e :: shapesOf rest

end

mutual

/-- Holds when every leaf anywhere in the expression whose Column field
asserts to clause.Column carries an empty table qualifier. -/
def exprCleared : Expr → Bool
  | .and es => exprsCleared es
  | .or es => exprsCleared es
  | .not es => exprsCleared es
  | .leafStruct fv? _ =>
      match fv? with
      | some (.colVal c) => decide (c.table = "")
      | some (.ifaceCol c) => decide (c.table = "")
      | _ => true
  | .leafNonStruct _ => true

/-- Holds when every leaf in the list is cleared. -/
def exprsCleared : List Expr → Bool
  | [] => true
  | e :: rest => exprCleared e && exprsCleared rest

end

/-- Embeds strings.Contains(str, ".") over the character list of the
identifier. -/
def containsDot : List Char → Bool
  | [] => false
  | c :: rest => if c = '.' then true else containsDot rest

/-- Embeds strings.Split(str, ".") over the character list: the dot-delimited
segments, with empty segments kept (Split of the empty string is one empty
segment). -/
def splitOnDot : List Char → List (List Char)
  | [] => [[]]
  | c :: rest =>
      if c = '.' then [] :: splitOnDot rest
      else
        match splitOnDot rest with
        | [] => [[c]]
        | seg :: segs => (c :: seg) :: segs

/-- Embeds the loop body of QuoteTo (src/clickhouse.go lines 287-293): for
each segment at index idx, write ".`" when idx > 0, then the segment, then
a closing backtick. -/
def writeSegs : Nat → List (List Char) → List Char
  | _, [] => []
  | idx, seg :: rest =>
      (if 0 < idx then ['.', '`'] else []) ++ (seg ++ ('`' :: writeSegs (idx + 1) rest))

/-- Embeds QuoteTo (src/clickhouse.go lines 284-298): write an opening
backtick; if the identifier contains a dot, run the segment loop, otherwise
write the identifier followed by a closing backtick. -/
def QuoteTo (str : List Char) : List Char :=
  '`' :: (if containsDot str then writeSegs 0 (splitOnDot str) else str ++ ['`'])

/-- A segment wrapped in its own pair of backticks, stated from the spec's
words. -/
def wrapSeg (t : List Char) : List Char := '`' :: (t ++ ['`'])

/-- Joining quoted segments with an unquoted dot between consecutive ones,
stated from the spec's words. -/
def joinDots : List (List Char) → List Char
  | [] => []
  | [t] => t
  | t :: u :: rest => t ++ ('.' :: joinDots (u :: rest))

/-- Specification-side quoter: a dotted identifier becomes its dot-delimited
segments each backtick-wrapped and joined with unquoted dots; any other
identifier is wrapped in a single pair of backticks. -/
def quoteSpec (str : List Char) : List Char :=
  if containsDot str then joinDots ((splitOnDot str).map wrapSeg) else wrapSeg str

/-- A well-formed single quoted token: an opening backtick, an interior free
of backticks, and a closing backtick. -/
def isSingleQuotedToken (out : List Char) : Prop :=
  ∃ inner : List Char, out = '`' :: (inner ++ ['`']) ∧ inner.count '`' = 0

/-- String-level wrapper of the quoter, used by the statement builder. -/
def quoteString (s : String) : String := String.mk (QuoteTo s.data)

/-- Embeds the gorm statement as far as the DELETE clause builder reads and
writes it: the current table name, the FROM clause (when present in
stmt.Clauses), the WHERE clause's expression list (when present with a
clause.Where expression), and the SQL text written so far. -/
structure GClause where
  name : String
  exprSQL : Option String

/-- Renders a gorm clause.Clause (host-framework behavior at the boundary):
nothing when it has no expression, otherwise the name followed by a space
(when the name is non-empty) and the rendered expression. -/
def GClause.build (c : GClause) : String :=
  match c.exprSQL with
  | none => ""
  | some sql => (if c.name = "" then "" else c.name ++ " ") ++ sql

/-- The statement state the DELETE builder touches. -/
structure Statement where
  table : String
  fromClause : Option GClause
  whereConds : Option (List Expr)
  buf : String

/-- Embeds builder.WriteString. -/
def writeString (stmt : Statement) (s : String) : Statement :=
  { stmt with buf := stmt.buf ++ s }

/-- Embeds builder.WriteQuoted(clause.Table with Name CurrentTable): the
current table is resolved to the statement's table and quoted with the
dialect's QuoteTo. -/
def writeQuotedTable (stmt : Statement) : Statement :=
  writeString stmt (quoteString stmt.table)

/-- Embeds modifyStatementWhereConds (src/clickhouse.go lines 133-139):
when the statement has a WHERE clause holding a clause.Where expression,
rewrite its expression list with modifyExprs. -/
def modifyStatementWhereConds (stmt : Statement) : Statement :=
  match stmt.whereConds with
  | some es => { stmt with whereConds := some (modifyExprs es) }
  | none => stmt

/-- Embeds the DELETE clause builder (src/clickhouse.go lines 169-186):
write "ALTER TABLE "; when the statement carries a FROM clause, render it
with its Name cleared and mark the table as added; rewrite the WHERE
conditions; when no table was added, write the quoted current table;
finally write " DELETE". -/
def deleteClauseBuilder (stmt : Statement) : Statement :=
  let stmt := writeString stmt "ALTER TABLE "
  let afterFrom :=
    match stmt.fromClause with
    | some fc => (writeString stmt (GClause.build { fc with name := "" }), true)
    | none => (stmt, false)
  let stmt := modifyStatementWhereConds afterFrom.1
  let stmt := if afterFrom.2 then stmt else writeQuotedTable stmt
  writeString stmt " DELETE"

/-- Embeds the dialect's Config (src/clickhouse.go lines 21-36), restricted
to the fields the embedded operations read or write; Conn is carried as the
flag hasConn. -/
structure Config where
  driverName : String
  dsn : String
  hasConn : Bool
  disableDatetimePrecision : Bool
  dontSupportRenameColumn : Bool
  skipInitializeWithVersion : Bool
  defaultGranularity : Int
  defaultCompression : String
  defaultIndexType : String
  defaultTableEngineOpts : String
  deriving DecidableEq, Repr

/-- Embeds gorm's schema.Field as DataTypeOf reads it: the DataType string
and the Size, Precision and Scale integers. -/
structure Field where
  dataType : String
  size : Int
  precision : Int
  scale : Int
  deriving DecidableEq, Repr

/-- The gorm schema.DataType constant for booleans. -/
def schemaBool : String := "bool"

/-- The gorm schema.DataType constant for signed integers. -/
def schemaInt : String := "int"

/-- The gorm schema.DataType constant for unsigned integers. -/
def schemaUint : String := "uint"

/-- The gorm schema.DataType constant for floating point. -/
def schemaFloat : String := "float"

/-- The gorm schema.DataType constant for strings. -/
def schemaString : String := "string"

/-- The gorm schema.DataType constant for byte sequences. -/
def schemaBytes : String := "bytes"

/-- The gorm schema.DataType constant for timestamps. -/
def schemaTime : String := "time"

/-- Embeds DataTypeOf (src/clickhouse.go lines 226-274).  The Go function
receives a pointer to the field and assigns field.Precision in the time
branch, so the embedding returns the resulting field state alongside the
type string. -/
def DataTypeOf (d : Config) (field : Field) : String × Field :=
  if field.dataType = schemaBool then ("UInt8", field)
  else if field.dataType = schemaInt ∨ field.dataType = schemaUint then
    let sqlType :=
      if field.size ≤ 8 then "Int8"
      else if field.size ≤ 16 then "Int16"
      else if field.size ≤ 32 then "Int32"
      else "Int64"
    if field.dataType = schemaUint then ("U" ++ sqlType, field) else (sqlType, field)
  else if field.dataType = schemaFloat then
    if 0 < field.precision then
      ("decimal(" ++ toString field.precision ++ ", " ++ toString field.scale ++ ")", field)
    else if field.size ≤ 32 then ("Float32", field)
    else ("Float64", field)
  else if field.dataType = schemaString then
    if field.size = 0 then ("String", field)
    else ("FixedString(" ++ toString field.size ++ ")", field)
  else if field.dataType = schemaBytes then ("String", field)
  else if field.dataType = schemaTime then
    if d.disableDatetimePrecision then ("DateTime64", field)
    else
      let field := if field.precision = 0 then { field with precision := 3 } else field
      let precision := if 0 < field.precision then "(" ++ toString field.precision ++ ")" else ""
      ("DateTime64" ++ precision, field)
  else (field.dataType, field)

/-- Accumulates the value of a digit string, most significant digit first. -/
def digitsVal : List Char → Nat → Nat
  | [], acc => acc
  | c :: rest, acc => digitsVal rest (acc * 10 + (c.toNat - 48))

/-- Parses one dotted-version segment: a non-empty all-digit string. -/
def parseNatSeg (cs : List Char) : Option Nat :=
  if cs = [] then none
  else if cs.all Char.isDigit then some (digitsVal cs 0)
  else none

/-- Modelled from the spec: version.NewVersion of the external
hashicorp/go-version library (not part of this repository), restricted to
dotted numeric version strings such as "20.3.1"; any other string fails to
parse (spec §4.4: best-effort parsing, parse failure yields an
unparsed/zero version object rather than a fatal error). -/
def newVersion (s : String) : Option (List Nat) :=
  let segs := (splitOnDot s.data).map parseNatSeg
  if segs.all Option.isSome then some (segs.map (fun o => o.getD 0)) else none

/-- Compares version segment lists with missing segments read as zero; the
fuel is the number of positions still to compare. -/
def segLtAux : Nat → List Nat → List Nat → Bool
  | 0, _, _ => false
  | n + 1, a, b =>
      let x := a.headD 0
      let y := b.headD 0
      if x < y then true
      else if y < x then false
      else segLtAux n a.tail b.tail

/-- Strict less-than on version segment lists. -/
def segLt (a b : List Nat) : Bool := segLtAux (max a.length b.length) a b

/-- Modelled from the spec: the fixed "< 20.4" constraint check of the
external version library, with a failed parse treated as an unknown/zero
version, which satisfies the constraint (spec §7b: capability flags default
to the conservative, unsupported side). -/
def checkNoRenameConstraint (v : Option (List Nat)) : Bool :=
  segLt (v.getD [0]) [20, 4]

/-- Embeds the option-defaulting block of Initialize (src/clickhouse.go
lines 62-82): each unset option field is replaced by its default. -/
def applyDefaults (cfg : Config) : Config :=
  { cfg with
      driverName := if cfg.driverName = "" then "clickhouse" else cfg.driverName
      defaultGranularity := if cfg.defaultGranularity = 0 then 3 else cfg.defaultGranularity
      defaultCompression := if cfg.defaultCompression = "" then "LZ4" else cfg.defaultCompression
      defaultIndexType := if cfg.defaultIndexType = "" then "minmax" else cfg.defaultIndexType
      defaultTableEngineOpts :=
        if cfg.defaultTableEngineOpts = "" then "ENGINE=MergeTree() ORDER BY tuple()"
        else cfg.defaultTableEngineOpts }

/-- Embeds Initialize (src/clickhouse.go lines 54-131) as far as it touches
the config: apply defaults; open the connection unless one was supplied
(openResult stands for sql.Open, an error is returned verbatim); unless
version detection is skipped, run the version query (versionResult stands
for the SELECT version() scan, an error is returned verbatim), parse the
version and set DontSupportRenameColumn when the "< 20.4" constraint holds.
Callback and clause-builder registration mutate only the host db object and
are not config state. -/
def Initialize (cfg : Config) (openResult : Except String Unit)
    (versionResult : Except String String) : Except String Config :=
  let cfg := applyDefaults cfg
  match (if cfg.hasConn then Except.ok () else openResult) with
  | .error e => .error e
  | .ok _ =>
      if cfg.skipInitializeWithVersion then .ok cfg
      else
        match versionResult with
        | .error e => .error e
        | .ok vs =>
            if checkNoRenameConstraint (newVersion vs) then
              .ok { cfg with dontSupportRenameColumn := true }
            else .ok cfg

/-- The DontSupportRenameColumn flag of a finished initialization, when it
succeeded. -/
def renameFlagOf : Except String Config → Option Bool
  | .ok c => some c.dontSupportRenameColumn
  | .error _ => none

/-- An opaque transaction handle (gorm.DB), carried only to show the stubs
ignore it. -/
structure GormDB where
  id : Nat
  deriving DecidableEq, Repr

/-- The gorm error values the dialect can return from the savepoint stubs;
unsupportedDriver embeds gorm.ErrUnsupportedDriver. -/
inductive GormError where
  | unsupportedDriver
  | other (msg : String)
  deriving DecidableEq, Repr

/-- Embeds SavePoint (src/clickhouse.go lines 304-306): always returns
gorm.ErrUnsupportedDriver; none models a nil error. -/
def SavePoint (tx : GormDB) (name : String) : Option GormError :=
  some GormError.unsupportedDriver

/-- Embeds RollbackTo (src/clickhouse.go lines 308-310): always returns
gorm.ErrUnsupportedDriver; none models a nil error. -/
def RollbackTo (tx : GormDB) (name : String) : Option GormError :=
  some GormError.unsupportedDriver

/-- Two independent gorm statements; Go struct values held in interfaces and
slices are copied on assignment, so a predicate object reused across two
statements appears as an equal value in each statement's own tree. -/
structure World where
  stmt1 : Statement
  stmt2 : Statement

/-- Rewriting the first statement's WHERE conditions, as the DELETE and
UPDATE clause builders do for the one statement handed to them. -/
def rewriteFirst (w : World) : World :=
  { stmt1 := modifyStatementWhereConds w.stmt1, stmt2 := w.stmt2 }

/-- The WHERE expression list of a statement, empty when absent. -/
def whereList (stmt : Statement) : List Expr :=
  stmt.whereConds.getD []

/-- A composite AND/OR/NOT node. -/
def isComposite : Expr → Bool
  | .and _ => true
  | .or _ => true
  | .not _ => true
  | .leafStruct _ _ => false
  | .leafNonStruct _ => false

/-- A leaf the rewriter recognizes: a struct with a present, non-zero
Column field asserting to clause.Column. -/
def exprRewritable : Expr → Bool
  | .leafStruct fv? _ => leafRewritable fv?
  | _ => false

theorem rewriteLeaf_eq_clear (fv? : Option FieldVal) (p : String) :
    rewriteLeaf fv? p =
      (if leafRewritable fv? then Expr.leafStruct (fv?.map clearFieldTable) p
       else Expr.leafStruct fv? p) := by
  cases fv? with
  | none => rfl
  | some fv =>
      cases fv with
      | colVal c =>
          by_cases hz : c.isZero = true <;>
            simp [rewriteLeaf, leafRewritable, FieldVal.isZeroField, FieldVal.assertColumn,
              FieldVal.setColumn, clearFieldTable, hz]
      | ifaceCol c =>
          simp [rewriteLeaf, leafRewritable, FieldVal.isZeroField, FieldVal.assertColumn,
            FieldVal.setColumn, clearFieldTable]
      | ifaceNil => rfl
      | otherType z =>
          cases z <;> rfl

mutual

theorem rewriteExpr_eq_clearExpr : (e : Expr) → rewriteExpr e = clearExpr e
  | .and es => by rw [rewriteExpr, clearExpr, modifyExprs_eq_clearExprs es]
  | .not es => by rw [rewriteExpr, clearExpr, modifyExprs_eq_clearExprs es]
  | .or es => by rw [rewriteExpr, clearExpr, modifyExprs_eq_clearExprs es]
  | .leafStruct fv? p => by
      rw [rewriteExpr, rewriteLeaf_eq_clear fv? p, clearExpr]
  | .leafNonStruct p => by rw [rewriteExpr, clearExpr]

theorem modifyExprs_eq_clearExprs : (es : List Expr) → modifyExprs es = clearExprs es
  | [] => rfl
  | e :: rest => by
      rw [modifyExprs, clearExprs, rewriteExpr_eq_clearExpr e, modifyExprs_eq_clearExprs rest]

end

theorem rewriteLeaf_shape (fv? : Option FieldVal) (p : String) :
    shapeOf (rewriteLeaf fv? p) = Shape.leaf := by
  rw [rewriteLeaf_eq_clear]
  by_cases h : leafRewritable fv? = true <;> simp [h, shapeOf]

mutual

theorem shapeOf_rewriteExpr : (e : Expr) → shapeOf (rewriteExpr e) = shapeOf e
  | .and es => by rw [rewriteExpr, shapeOf, shapesOf_modifyExprs es, shapeOf]
  | .not es => by rw [rewriteExpr, shapeOf, shapesOf_modifyExprs es, shapeOf]
  | .or es => by rw [rewriteExpr, shapeOf, shapesOf_modifyExprs es, shapeOf]
  | .leafStruct fv? p => by rw [rewriteExpr, rewriteLeaf_shape fv? p, shapeOf]
  | .leafNonStruct p => by rw [rewriteExpr]

theorem shapesOf_modifyExprs : (es : List Expr) → shapesOf (modifyExprs es) = shapesOf es
  | [] => rfl
  | e :: rest => by
      rw [modifyExprs, shapesOf, shapeOf_rewriteExpr e, shapesOf_modifyExprs rest, shapesOf]

end

theorem isZero_table (c : Column) (h : c.isZero = true) : c.table = "" := by
  unfold Column.isZero at h
  simp only [Bool.and_eq_true, decide_eq_true_eq] at h
  exact h.1.1.1

theorem rewriteLeaf_cleared (fv? : Option FieldVal) (p : String) :
    exprCleared (rewriteLeaf fv? p) = true := by
  cases fv? with
  | none => rfl
  | some fv =>
      cases fv with
      | colVal c =>
          by_cases hz : c.isZero = true
          · simp [rewriteLeaf, FieldVal.isZeroField, hz, exprCleared, isZero_table c hz]
          · simp [rewriteLeaf, FieldVal.isZeroField, hz, FieldVal.assertColumn,
              FieldVal.setColumn, exprCleared]
      | ifaceCol c =>
          simp [rewriteLeaf, FieldVal.isZeroField, FieldVal.assertColumn, FieldVal.setColumn,
            exprCleared]
      | ifaceNil => rfl
      | otherType z => cases z <;> rfl

mutual

theorem exprCleared_rewriteExpr : (e : Expr) → exprCleared (rewriteExpr e) = true
  | .and es => by rw [rewriteExpr, exprCleared, exprsCleared_modifyExprs es]
  | .not es => by rw [rewriteExpr, exprCleared, exprsCleared_modifyExprs es]
  | .or es => by rw [rewriteExpr, exprCleared, exprsCleared_modifyExprs es]
  | .leafStruct fv? p => rewriteLeaf_cleared fv? p
  | .leafNonStruct _ => rfl

theorem exprsCleared_modifyExprs : (es : List Expr) → exprsCleared (modifyExprs es) = true
  | [] => rfl
  | e :: rest => by
      rw [modifyExprs, exprsCleared, exprCleared_rewriteExpr e, exprsCleared_modifyExprs rest,
        Bool.and_self]

end

/-- C1: rewriting (modifyStatementWhereConds / modifyExprs) descends through
every AND/OR/NOT node, leaves the AND/OR/NOT structure unchanged, and
clears the table qualifier to empty on exactly those leaf predicates that
are structs carrying a present, non-zero Column field of the column type
(the specification-side clearExprs); every qualified leaf anywhere in the
nesting ends with an empty table qualifier. -/
theorem modifyExprs_clears_qualifiers (es : List Expr) :
    modifyExprs es = clearExprs es ∧
    shapesOf (modifyExprs es) = shapesOf es ∧
    exprsCleared (modifyExprs es) = true ∧
    ∀ stmt : Statement,
      whereList (modifyStatementWhereConds stmt) = modifyExprs (whereList stmt) := by
  refine ⟨modifyExprs_eq_clearExprs es, shapesOf_modifyExprs es, exprsCleared_modifyExprs es, ?_⟩
  intro stmt
  cases h : stmt.whereConds <;> simp [modifyStatementWhereConds, whereList, h, modifyExprs]

/-- C2: the rewriter stores a fresh copy with the table qualifier cleared in
the expression list (the reflect.New construction, modelled by rewriteLeaf
building a new term) and never mutates the original predicate object: Go
struct values in interfaces and slices have copy semantics, so the same
predicate value reused in a second statement still carries its original
table qualifier after the first statement's tree is rewritten. -/
theorem modifyExprs_copy_not_mutate (w : World) (c : Column) (p : String)
    (hz : c.isZero = false)
    (h1 : Expr.leafStruct (some (.colVal c)) p ∈ whereList w.stmt1)
    (h2 : Expr.leafStruct (some (.colVal c)) p ∈ whereList w.stmt2) :
    (rewriteFirst w).stmt2 = w.stmt2 ∧
    Expr.leafStruct (some (.colVal c)) p ∈ whereList (rewriteFirst w).stmt2 ∧
    rewriteExpr (Expr.leafStruct (some (.colVal c)) p)
      = Expr.leafStruct (some (.colVal { c with table := "" })) p := by
  refine ⟨rfl, h2, ?_⟩
  rw [rewriteExpr]
  simp [rewriteLeaf, FieldVal.isZeroField, hz, FieldVal.assertColumn, FieldVal.setColumn]

/-- A qualified column on table users, its leaf predicate, and two
statements sharing that predicate value. -/
def colUsers : Column := ⟨"users", "id", "", false⟩

/-- A leaf predicate struct carrying colUsers in a clause.Column field. -/
def leafUsers : Expr := .leafStruct (some (.colVal colUsers)) "eq"

/-- Statement one: deletes from users with the shared qualified predicate. -/
def stmtOne : Statement := ⟨"users", none, some [leafUsers], ""⟩

/-- Statement two: an unrelated statement reusing the same predicate value. -/
def stmtTwo : Statement := ⟨"orders", none, some [leafUsers], ""⟩

/-- The two-statement world for the copy-not-mutate scenario. -/
def worldEx : World := ⟨stmtOne, stmtTwo⟩

theorem modifyExprs_copy_not_mutate_witness :
    (rewriteFirst worldEx).stmt2 = worldEx.stmt2 ∧
    Expr.leafStruct (some (.colVal colUsers)) "eq" ∈ whereList (rewriteFirst worldEx).stmt2 ∧
    rewriteExpr (Expr.leafStruct (some (.colVal colUsers)) "eq")
      = Expr.leafStruct (some (.colVal { colUsers with table := "" })) "eq" :=
  modifyExprs_copy_not_mutate worldEx colUsers "eq" (by decide)
    (by simp [whereList, worldEx, stmtOne, leafUsers])
    (by simp [whereList, worldEx, stmtTwo, leafUsers])

theorem rewriteLeaf_id (fv? : Option FieldVal) (p : String)
    (h : leafRewritable fv? = false) : rewriteLeaf fv? p = .leafStruct fv? p := by
  rw [rewriteLeaf_eq_clear, h]
  simp

theorem modifyExprs_getElem (es : List Expr) (i : Nat) :
    (modifyExprs es)[i]? = (es[i]?).map rewriteExpr := by
  induction es generalizing i with
  | nil => simp [modifyExprs]
  | cons e rest ih =>
      cases i with
      | zero => simp [modifyExprs]
      | succ n => simpa [modifyExprs] using ih n

theorem modifyExprs_length (es : List Expr) : (modifyExprs es).length = es.length := by
  induction es with
  | nil => rfl
  | cons e rest ih => simp [modifyExprs, ih]

/-- C7: clause rewriting is total and never fails; an expression that is
not an AND/OR/NOT composite and has no recognizable non-zero Column field
of the column type (non-struct expressions included, as are structs whose
Column field has another type or is zero) passes through modifyExprs
exactly unchanged, at its slot, with no element dropped. -/
theorem modifyExprs_passthrough (e : Expr)
    (hcomp : isComposite e = false) (hrw : exprRewritable e = false) :
    rewriteExpr e = e ∧
    (∀ (es : List Expr) (i : Nat), es[i]? = some e → (modifyExprs es)[i]? = some e) ∧
    (∀ es : List Expr, (modifyExprs es).length = es.length) := by
  have hid : rewriteExpr e = e := by
    cases e with
    | and es => simp [isComposite] at hcomp
    | or es => simp [isComposite] at hcomp
    | not es => simp [isComposite] at hcomp
    | leafStruct fv? p =>
        rw [rewriteExpr]
        exact rewriteLeaf_id fv? p (by simpa [exprRewritable] using hrw)
    | leafNonStruct p => rw [rewriteExpr]
  refine ⟨hid, ?_, modifyExprs_length⟩
  intro es i hi
  rw [modifyExprs_getElem, hi]
  simp [hid]

/-- A struct leaf whose Column field holds a value of a different type:
the rewriter must pass it through. -/
def leafOtherField : Expr := .leafStruct (some (.otherType false)) "raw"

theorem modifyExprs_passthrough_witness :
    rewriteExpr leafOtherField = leafOtherField ∧
    (modifyExprs [leafOtherField])[0]? = some leafOtherField := by
  have h := modifyExprs_passthrough leafOtherField rfl rfl
  exact ⟨h.1, h.2.1 [leafOtherField] 0 rfl⟩

/-- C9: for every transaction handle and savepoint name, SavePoint and
RollbackTo both return the same fixed unsupported-driver error value
(gorm.ErrUnsupportedDriver) and never nil. -/
theorem savePoint_rollbackTo_unsupported (tx tx' : GormDB) (name name' : String) :
    SavePoint tx name = some GormError.unsupportedDriver ∧
    RollbackTo tx' name' = some GormError.unsupportedDriver ∧
    SavePoint tx name = RollbackTo tx' name' ∧
    SavePoint tx name ≠ none := by
  refine ⟨rfl, rfl, rfl, ?_⟩
  simp [SavePoint]

theorem splitOnDot_ne_nil (s : List Char) : splitOnDot s ≠ [] := by
  cases s with
  | nil => simp [splitOnDot]
  | cons c rest =>
      by_cases h : c = '.'
      · simp [splitOnDot, h]
      · cases hs : splitOnDot rest <;> simp [splitOnDot, h, hs]

theorem containsDot_splitOnDot_length :
    (s : List Char) → containsDot s = true → 2 ≤ (splitOnDot s).length
  | [], h => by simp [containsDot] at h
  | c :: rest, h => by
      by_cases hc : c = '.'
      · have hne := splitOnDot_ne_nil rest
        have : 0 < (splitOnDot rest).length := List.length_pos.mpr hne
        simp [splitOnDot, hc]
        omega
      · have h' : containsDot rest = true := by
          simpa [containsDot, hc] using h
        have ih := containsDot_splitOnDot_length rest h'
        cases hs : splitOnDot rest with
        | nil => exact absurd hs (splitOnDot_ne_nil rest)
        | cons seg segs =>
            rw [hs] at ih
            simp [splitOnDot, hc, hs]
            simpa using ih

theorem writeSegs_pos :
    (segs : List (List Char)) → (idx : Nat) → 0 < idx →
      writeSegs idx segs = (segs.map (fun t => '.' :: wrapSeg t)).flatten
  | [], idx, _ => by simp [writeSegs]
  | seg :: rest, idx, h => by
      have ih := writeSegs_pos rest (idx + 1) (Nat.succ_pos idx)
      simp [writeSegs, h, wrapSeg, ih]

theorem quote_writeSegs (seg : List Char) (rest : List (List Char)) :
    '`' :: writeSegs 0 (seg :: rest) =
      wrapSeg seg ++ (rest.map (fun t => '.' :: wrapSeg t)).flatten := by
  rw [writeSegs, writeSegs_pos rest 1 Nat.one_pos]
  simp [wrapSeg]

theorem joinDots_wrap :
    (seg : List Char) → (rest : List (List Char)) →
      joinDots ((seg :: rest).map wrapSeg) =
        wrapSeg seg ++ (rest.map (fun t => '.' :: wrapSeg t)).flatten
  | seg, [] => by simp [joinDots]
  | seg, u :: rest => by
      have ih := joinDots_wrap u rest
      simp only [List.map_cons, joinDots] at ih ⊢
      rw [ih]
      simp

/-- C8: QuoteTo coincides with the specification-side quoter: an identifier
without a dot is written as exactly the string wrapped in one pair of
backticks, and a dotted identifier (which always has at least two
dot-delimited segments) is written as each segment wrapped in its own pair
of backticks with an unquoted dot joining consecutive quoted segments. -/
theorem QuoteTo_spec_refinement (s : List Char) :
    QuoteTo s = quoteSpec s ∧
    (containsDot s = false → QuoteTo s = '`' :: (s ++ ['`'])) ∧
    (containsDot s = true →
      QuoteTo s = joinDots ((splitOnDot s).map wrapSeg) ∧ 2 ≤ (splitOnDot s).length) := by
  have main : QuoteTo s = quoteSpec s := by
    by_cases hd : containsDot s = true
    · cases hs : splitOnDot s with
      | nil => exact absurd hs (splitOnDot_ne_nil s)
      | cons seg rest =>
          rw [QuoteTo, quoteSpec, if_pos hd, if_pos hd, hs]
          rw [show ('`' :: writeSegs 0 (seg :: rest)) = wrapSeg seg ++
              (rest.map (fun t => '.' :: wrapSeg t)).flatten from quote_writeSegs seg rest]
          rw [joinDots_wrap seg rest]
    · rw [QuoteTo, quoteSpec, if_neg hd, if_neg hd, wrapSeg]
  refine ⟨main, ?_, ?_⟩
  · intro hd
    rw [QuoteTo, if_neg (by simp [hd])]
  · intro hd
    refine ⟨?_, containsDot_splitOnDot_length s hd⟩
    rw [main, quoteSpec, if_pos hd]

theorem QuoteTo_spec_refinement_witness :
    QuoteTo ['a', '.', 'b', '.', 'c'] = quoteSpec ['a', '.', 'b', '.', 'c'] ∧
    QuoteTo ['a', '.', 'b', '.', 'c'] =
      joinDots ((splitOnDot ['a', '.', 'b', '.', 'c']).map wrapSeg) ∧
    2 ≤ (splitOnDot ['a', '.', 'b', '.', 'c']).length ∧
    QuoteTo ['a', 'b'] = '`' :: (['a', 'b'] ++ ['`']) :=
  ⟨(QuoteTo_spec_refinement ['a', '.', 'b', '.', 'c']).1,
   ((QuoteTo_spec_refinement ['a', '.', 'b', '.', 'c']).2.2 (by decide)).1,
   ((QuoteTo_spec_refinement ['a', '.', 'b', '.', 'c']).2.2 (by decide)).2,
   (QuoteTo_spec_refinement ['a', 'b']).2.1 (by decide)⟩

theorem count_splitOnDot :
    (s : List Char) → ((splitOnDot s).map (fun t => t.count '`')).sum = s.count '`'
  | [] => by simp [splitOnDot]
  | c :: rest => by
      have ih := count_splitOnDot rest
      by_cases hc : c = '.'
      · subst hc
        simp [splitOnDot, ih, List.count_cons]
      · cases hs : splitOnDot rest with
        | nil => exact absurd hs (splitOnDot_ne_nil rest)
        | cons seg segs =>
            rw [hs] at ih
            simp only [List.map_cons, List.sum_cons] at ih
            simp [splitOnDot, hc, hs, List.count_cons]
            omega

theorem count_writeSegs :
    (idx : Nat) → (segs : List (List Char)) →
      (segs.map (fun t => t.count '`')).sum + segs.length ≤ (writeSegs idx segs).count '`'
  | _, [] => by simp [writeSegs]
  | idx, seg :: rest => by
      have ih := count_writeSegs (idx + 1) rest
      by_cases h : 0 < idx <;>
        simp [writeSegs, h, List.count_append, List.count_cons] <;> omega

theorem count_QuoteTo (s : List Char) : s.count '`' + 2 ≤ (QuoteTo s).count '`' := by
  by_cases hd : containsDot s = true
  · have h2 := containsDot_splitOnDot_length s hd
    have hc := count_splitOnDot s
    have hw := count_writeSegs 0 (splitOnDot s)
    rw [QuoteTo, if_pos hd]
    simp only [List.count_cons]
    omega
  · rw [QuoteTo, if_neg (by simpa using hd)]
    simp [List.count_cons, List.count_append]

theorem singleQuoted_count (out : List Char) (h : isSingleQuotedToken out) :
    out.count '`' = 2 := by
  obtain ⟨inner, rfl, hfree⟩ := h
  simp [List.count_cons, List.count_append, hfree]

/-- C10: QuoteTo performs no escaping: all backticks of the input survive
verbatim into the output (two more are added per wrapping pair, and the
no-dot output is literally the input between two backticks), so for an
input containing a backtick the result is not a well-formed single quoted
token. -/
theorem QuoteTo_no_escaping (s : List Char) (h : 0 < s.count '`') :
    s.count '`' + 2 ≤ (QuoteTo s).count '`' ∧
    (containsDot s = false → QuoteTo s = '`' :: (s ++ ['`'])) ∧
    ¬ isSingleQuotedToken (QuoteTo s) := by
  refine ⟨count_QuoteTo s, ?_, ?_⟩
  · intro hd
    rw [QuoteTo, if_neg (by simp [hd])]
  · intro hw
    have h2 := singleQuoted_count _ hw
    have h3 := count_QuoteTo s
    omega

theorem QuoteTo_no_escaping_witness :
    (['a', '`', 'b'].count '`' + 2 ≤ (QuoteTo ['a', '`', 'b']).count '`') ∧
    QuoteTo ['a', '`', 'b'] = '`' :: (['a', '`', 'b'] ++ ['`']) ∧
    ¬ isSingleQuotedToken (QuoteTo ['a', '`', 'b']) :=
  ⟨(QuoteTo_no_escaping ['a', '`', 'b'] (by decide)).1,
   (QuoteTo_no_escaping ['a', '`', 'b'] (by decide)).2.1 (by decide),
   (QuoteTo_no_escaping ['a', '`', 'b'] (by decide)).2.2⟩

/-- C3: the DELETE clause builder emits text beginning with "ALTER TABLE ",
followed by the rendered FROM clause with its Name marker cleared when the
statement has one, or otherwise by the quoted current table, and ending
with " DELETE"; the WHERE conditions of the statement are rewritten with
modifyExprs, so in the no-FROM case a table-qualified WHERE column loses
its qualifier before rendering. -/
theorem deleteClauseBuilder_spec (stmt : Statement) (hbuf : stmt.buf = "") :
    (deleteClauseBuilder stmt).buf =
      "ALTER TABLE " ++
        (match stmt.fromClause with
         | some fc => GClause.build { fc with name := "" }
         | none => quoteString stmt.table) ++ " DELETE" ∧
    (∀ es, stmt.whereConds = some es →
      (deleteClauseBuilder stmt).whereConds = some (modifyExprs es) ∧
      exprsCleared (modifyExprs es) = true) := by
  constructor
  · cases hf : stmt.fromClause with
    | some fc =>
        cases hw : stmt.whereConds <;>
          simp [deleteClauseBuilder, writeString, writeQuotedTable, modifyStatementWhereConds,
            hf, hw, hbuf, String.append_assoc]
    | none =>
        cases hw : stmt.whereConds <;>
          simp [deleteClauseBuilder, writeString, writeQuotedTable, modifyStatementWhereConds,
            hf, hw, hbuf, String.append_assoc]
  · intro es hw
    refine ⟨?_, exprsCleared_modifyExprs es⟩
    cases hf : stmt.fromClause <;>
      simp [deleteClauseBuilder, writeString, writeQuotedTable, modifyStatementWhereConds,
        hf, hw]

theorem deleteClauseBuilder_spec_witness :
    (deleteClauseBuilder stmtOne).buf = "ALTER TABLE " ++ quoteString "users" ++ " DELETE" ∧
    (deleteClauseBuilder stmtOne).whereConds = some (modifyExprs [leafUsers]) ∧
    exprsCleared (modifyExprs [leafUsers]) = true := by
  have h := deleteClauseBuilder_spec stmtOne rfl
  exact ⟨h.1, (h.2 [leafUsers] rfl).1, (h.2 [leafUsers] rfl).2⟩

/-- The result of an initialization attempt, success as a boolean. -/
def isOkResult : Except String Config → Bool
  | .ok _ => true
  | .error _ => false

/-- A config with every option at its zero value, version detection on,
and a supplied connection. -/
def cfgZero : Config := ⟨"", "", true, false, false, false, 0, "", "", ""⟩

/-- C5: for every version string returned by a successful version query,
parsable or not, Initialize completes without a fatal error: a failed parse
is treated as an unknown/zero version and the capability check still runs
(setting the conservative flag), while a failure of the version query
itself is returned as the error. -/
theorem Initialize_total_on_version_strings (cfg : Config) (vs : String) :
    isOkResult (Initialize cfg (Except.ok ()) (Except.ok vs)) = true ∧
    (Initialize cfg (Except.ok ()) (Except.ok vs) =
      if checkNoRenameConstraint (newVersion vs) = true ∧ cfg.skipInitializeWithVersion = false
      then Except.ok { applyDefaults cfg with dontSupportRenameColumn := true }
      else Except.ok (applyDefaults cfg)) ∧
    (cfg.skipInitializeWithVersion = false →
      ∀ e, Initialize cfg (Except.ok ()) (Except.error e) = Except.error e) := by
  have hskip : (applyDefaults cfg).skipInitializeWithVersion = cfg.skipInitializeWithVersion := rfl
  refine ⟨?_, ?_, ?_⟩
  · unfold Initialize
    cases hc : (applyDefaults cfg).hasConn <;>
      cases hs : (applyDefaults cfg).skipInitializeWithVersion <;>
        cases hk : checkNoRenameConstraint (newVersion vs) <;>
          simp [hc, hs, hk, isOkResult]
  · unfold Initialize
    rw [← hskip]
    cases hc : (applyDefaults cfg).hasConn <;>
      cases hs : (applyDefaults cfg).skipInitializeWithVersion <;>
        cases hk : checkNoRenameConstraint (newVersion vs) <;>
          simp [hc, hs, hk]
  · intro hs e
    unfold Initialize
    rw [← hskip] at hs
    cases hc : (applyDefaults cfg).hasConn <;> simp [hc, hs]

theorem Initialize_total_on_version_strings_witness :
    isOkResult (Initialize cfgZero (Except.ok ()) (Except.ok "")) = true ∧
    isOkResult (Initialize cfgZero (Except.ok ()) (Except.ok "garbage")) = true ∧
    Initialize cfgZero (Except.ok ()) (Except.ok "") =
      Except.ok { applyDefaults cfgZero with dontSupportRenameColumn := true } ∧
    Initialize cfgZero (Except.ok ()) (Except.error "dial error") =
      Except.error "dial error" := by
  have h1 := Initialize_total_on_version_strings cfgZero ""
  have h2 := Initialize_total_on_version_strings cfgZero "garbage"
  refine ⟨h1.1, h2.1, ?_, h1.2.2 rfl "dial error"⟩
  have h3 := h1.2.1
  rw [if_pos ⟨by decide, rfl⟩] at h3
  exact h3

/-- A config whose rename-unsupported override is already set by the user,
with version detection on. -/
def cfgRenameOverride : Config := ⟨"", "", true, false, true, false, 0, "", "", ""⟩

/-- C4 counterexample: with a server version parsing as 20.5.0, which does
not satisfy the "< 20.4" constraint, Initialize leaves the
DontSupportRenameColumn flag at its configured value; starting from a
config whose override is set, the flag after initialization is true, not
false as the claim states. -/
theorem Initialize_flag_not_false_on_new_version :
    newVersion "20.5.0" = some [20, 5, 0] ∧
    checkNoRenameConstraint (newVersion "20.5.0") = false ∧
    renameFlagOf (Initialize cfgRenameOverride (Except.ok ()) (Except.ok "20.5.0")) =
      some true := by
  refine ⟨by decide, by decide, by decide⟩

/-- C4 (amended): with version detection enabled and a successful version
query, a version below 20.4 (such as "20.3.1") makes the rename-unsupported
flag true; a version at or above 20.4 (such as "20.5.0") leaves the flag at
its configured value — false exactly when the config did not already set
the override. -/
theorem Initialize_version_gate (cfg : Config)
    (h : cfg.skipInitializeWithVersion = false) :
    renameFlagOf (Initialize cfg (Except.ok ()) (Except.ok "20.3.1")) = some true ∧
    renameFlagOf (Initialize cfg (Except.ok ()) (Except.ok "20.5.0")) =
      some cfg.dontSupportRenameColumn := by
  have h31 : checkNoRenameConstraint (newVersion "20.3.1") = true := by decide
  have h50 : checkNoRenameConstraint (newVersion "20.5.0") = false := by decide
  have hskip : (applyDefaults cfg).skipInitializeWithVersion = cfg.skipInitializeWithVersion :=
    rfl
  have hflag : (applyDefaults cfg).dontSupportRenameColumn = cfg.dontSupportRenameColumn := rfl
  constructor <;>
  · unfold Initialize
    cases hc : (applyDefaults cfg).hasConn <;>
      simp [hc, hskip, h, h31, h50, renameFlagOf, hflag]

theorem Initialize_version_gate_witness :
    renameFlagOf (Initialize cfgZero (Except.ok ()) (Except.ok "20.3.1")) = some true ∧
    renameFlagOf (Initialize cfgZero (Except.ok ()) (Except.ok "20.5.0")) =
      some cfgZero.dontSupportRenameColumn :=
  Initialize_version_gate cfgZero rfl

/-- The timestamp field descriptor with precision zero. -/
def fieldTime0 : Field := ⟨"time", 0, 0, 0⟩

/-- C6 counterexample: for a timestamp field with precision 0 and datetime
precision enabled, DataTypeOf writes precision 3 back into the field
descriptor (src/clickhouse.go line 264 assigns through the field pointer),
so the descriptor does not come back unchanged. -/
theorem DataTypeOf_mutates_timestamp :
    fieldTime0.precision = 0 ∧
    (DataTypeOf cfgZero fieldTime0).2 ≠ fieldTime0 ∧
    (DataTypeOf cfgZero fieldTime0).2.precision = 3 := by
  refine ⟨by decide, by decide, by decide⟩

/-- C6 (amended): DataTypeOf leaves the field descriptor unchanged for
every kind except a timestamp with precision 0 while datetime precision is
enabled, in which case exactly the precision is set to 3. -/
theorem DataTypeOf_frame (d : Config) (f : Field) :
    (DataTypeOf d f).2 =
      if f.dataType = schemaTime ∧ d.disableDatetimePrecision = false ∧ f.precision = 0
      then { f with precision := 3 } else f := by
  unfold DataTypeOf
  dsimp only
  split_ifs <;>
    simp_all [schemaBool, schemaInt, schemaUint, schemaFloat, schemaString, schemaBytes,
      schemaTime]

end Clickhouse
